import Mathlib

/-!
Shallow embedding of the axis helpers of `funnelChart.ts` (module `AxisHelper`)
and of `TextMeasurementService.getTailoredTextOrDefault` from
`textMeasurementService.ts`.  JavaScript numbers are idealised as rationals;
`NaN` is modelled by `Option.none` where the code tests `isNaN`, and by an
explicit constructor of `JSNum` where infinities matter
(`normalizeNonFiniteNumber`).
-/

/-- A JavaScript number for `normalizeNonFiniteNumber`: finite values are
idealised as rationals, with explicit `NaN` and signed infinities. -/
inductive JSNum where
  | nan : JSNum
  | posInf : JSNum
  | negInf : JSNum
  | finite (q : ℚ) : JSNum
deriving DecidableEq, Repr

/-- Whether a `JSNum` is a finite number. -/
def JSNum.isFinite : JSNum → Bool
  | .finite _ => true
  | _ => false

/-- `Number.MAX_VALUE`, the largest finite IEEE-754 double, exactly. -/
def maxValue : ℚ := (2 ^ 53 - 1) * 2 ^ 971

/-- `AxisHelper.normalizeNonFiniteNumber`: `NaN` becomes `null` (modelled as
`none`), the two infinities are clamped to `±Number.MAX_VALUE`, and every
finite value is returned unchanged. -/
def normalizeNonFiniteNumber (value : JSNum) : Option JSNum :=
  match value with
  | .nan => none
  | .posInf => some (.finite maxValue)
  | .negInf => some (.finite (-maxValue))
  | .finite q => some (.finite q)

/-- The `NumberRange` interface: a `{min, max}` pair of JavaScript numbers,
each possibly `NaN` (`none`). -/
structure NumberRange where
  min : Option ℚ
  max : Option ℚ
deriving DecidableEq, Repr

/-- `export var fallBackDomain = [0, 10]`. -/
def fallBackDomain : List ℚ := [0, 10]

/-- `AxisHelper.normalizeLinearDomain`, case for case from the source: a `NaN`
bound resets the domain to the fallback; an all-zero domain gets the fallback
max; a degenerate `min === max` domain is expanded by 20% away from zero in
each direction; otherwise a negligibly small `min` is snapped to exactly 0. -/
def normalizeLinearDomain (domain : NumberRange) : NumberRange :=
  match domain.min, domain.max with
  | some mn, some mx =>
    if mn = 0 ∧ mx = 0 then
      ⟨some mn, some (fallBackDomain.getD 1 0)⟩
    else if mn = mx then
      ⟨some (if mn < 0 then mn * 1.2 else mn * 0.8),
       some (if mx < 0 then mx * 0.8 else mx * 1.2)⟩
    else
      if |mn| < 0.0001 ∧ mn / (mx - mn) < 0.0001 then
        ⟨some 0, some mx⟩
      else
        ⟨some mn, some mx⟩
  | _, _ => ⟨some (fallBackDomain.getD 0 0), some (fallBackDomain.getD 1 0)⟩

/-- `AxisHelper.getRecommendedNumberOfTicksForXAxis`. -/
def getRecommendedNumberOfTicksForXAxis (availableWidth : ℚ) : ℕ :=
  if availableWidth < 250 then 3
  else if availableWidth < 500 then 5
  else 8

/-- `AxisHelper.getRecommendedNumberOfTicksForYAxis`. -/
def getRecommendedNumberOfTicksForYAxis (availableWidth : ℚ) : ℕ :=
  if availableWidth < 150 then 3
  else if availableWidth < 300 then 5
  else 8

/-- The `IMargin` record. -/
structure IMargin where
  top : ℚ
  right : ℚ
  bottom : ℚ
  left : ℚ
deriving DecidableEq, Repr

/-- `AxisHelper.getMargin`. -/
def getMargin (availableWidth availableHeight xMargin yMargin : ℚ) : IMargin :=
  if getRecommendedNumberOfTicksForXAxis (availableWidth - xMargin) = 0
      ∨ getRecommendedNumberOfTicksForYAxis (availableHeight - yMargin) = 0 then
    ⟨0, xMargin, yMargin, 0⟩
  else
    ⟨20, 30, 40, 30⟩

/-- The slice of `ValueTypeDescriptor` that `hasNonIntegerData` inspects. -/
structure ValueTypeDescriptor where
  integer : Bool
deriving DecidableEq, Repr

/-- The slice of `DataViewMetadataColumn` that `hasNonIntegerData` inspects;
the `type` field may be absent (`none`). -/
structure DataViewMetadataColumn where
  type : Option ValueTypeDescriptor
deriving DecidableEq, Repr

/-- `AxisHelper.hasNonIntegerData`: some present column has a present type
whose `integer` flag is false.  Array entries may themselves be `null`. -/
def hasNonIntegerData (valuesMetadata : List (Option DataViewMetadataColumn)) : Bool :=
  valuesMetadata.any fun c =>
    match c with
    | some col =>
      match col.type with
      | some t => !t.integer
      | none => false
    | none => false

/-- `var DefaultBestTickCount = 3`. -/
def DefaultBestTickCount : ℚ := 3

/-- `AxisHelper.getBestNumberOfTicks`, with the source's branch order: the
`NaN` guard, then the `maxTickCount <= 1 || (max <= 1 && min >= -1)` early
return, then the degenerate `min === max` cases, then the integer-domain
minimum. -/
def getBestNumberOfTicks (mn mx : Option ℚ)
    (valuesMetadata : List (Option DataViewMetadataColumn))
    (maxTickCount : ℚ) (isDateTime : Bool) : ℚ :=
  match mn, mx with
  | some mn, some mx =>
    if maxTickCount ≤ 1 ∨ (mx ≤ 1 ∧ mn ≥ -1) then maxTickCount
    else if mn = mx then
      if isDateTime then 1 else DefaultBestTickCount
    else if hasNonIntegerData valuesMetadata then maxTickCount
    else min (mx - mn + 1) maxTickCount
  | _, _ => DefaultBestTickCount

/-- `var MinTickCount = 2`. -/
def MinTickCount : ℕ := 2

/-- The body of the stride loop of `getRecommendedTickValuesForAnOrdinalRange`:
`for (var i = 0, step = ...; i < len; i += step) tickLabels.push(labels[i])`.
The structural `fuel` argument only bounds the number of iterations; the loop
is always entered with `fuel = labels.length` and a positive `step`, which
suffices for it to run to completion. -/
def strideLoop (labels : List String) (step : ℕ) : ℕ → ℕ → List String
  | 0, _ => []
  | fuel + 1, i =>
    if h : i < labels.length then
      labels.get ⟨i, h⟩ :: strideLoop labels step fuel (i + step)
    else []

/-- `AxisHelper.getRecommendedTickValuesForAnOrdinalRange`. -/
def getRecommendedTickValuesForAnOrdinalRange (maxTicks : ℕ) (labels : List String) :
    List String :=
  if maxTicks ≤ 0 then []
  else if maxTicks > labels.length then labels
  else strideLoop labels (labels.length / maxTicks) labels.length 0

/-- `AxisHelper.createTrueZeroTickLabel`: with fewer than two ticks the list is
returned unchanged; otherwise every tick within `epsilon * |ticks[1] - ticks[0]|`
of zero is replaced by exactly 0. -/
def createTrueZeroTickLabel (ticks : List ℚ) (epsilon : ℚ) : List ℚ :=
  match ticks with
  | t0 :: t1 :: _ =>
    let closeZero := epsilon * |t1 - t0|
    ticks.map fun tick => if |tick| ≤ closeZero then 0 else tick
  | _ => ticks

/-- One pass of `for (var i = 1; i < tickLabels.length; i++) tickLabels.splice(i, 1)`:
splicing at every incremented index keeps exactly the even-indexed elements. -/
def spliceEveryOther : List ℚ → List ℚ
  | [] => []
  | [a] => [a]
  | a :: _ :: rest => a :: spliceEveryOther rest

/-- The `while (tickInterval > 0 && tickInterval < minInterval)` loop of
`getRecommendedTickValuesForAQuantitativeRange`: each pass halves the tick
list and doubles the remembered interval.  `fuel` bounds the iterations; the
loop mathematically terminates since a positive rational doubled repeatedly
exceeds any bound, and no theorem below depends on the fuel running out. -/
def minIntervalLoop (minInterval : ℚ) : ℕ → ℚ → List ℚ → List ℚ
  | 0, _, l => l
  | fuel + 1, tickInterval, l =>
    if 0 < tickInterval ∧ tickInterval < minInterval then
      minIntervalLoop minInterval fuel (tickInterval * 2) (spliceEveryOther l)
    else l

/-- `AxisHelper.getRecommendedTickValuesForAQuantitativeRange`.  The d3 scale is
abstracted by its tick generator `ticks : ℕ → List ℚ`; `minInterval` is the
optional argument, with `none` and `some 0` both falsy as in
`if (minInterval && ...)`. -/
def getRecommendedTickValuesForAQuantitativeRange (maxTicks : ℕ)
    (ticks : ℕ → List ℚ) (minInterval : Option ℚ) : List ℚ :=
  if maxTicks = 0 then []
  else
    let t1 := ticks maxTicks
    let t2 := if t1.length > maxTicks ∧ maxTicks > 1 then ticks (maxTicks - 1) else t1
    let t3 := if t2.length < MinTickCount then ticks (maxTicks + 1) else t2
    let tickLabels := createTrueZeroTickLabel t3 (1e-5)
    match minInterval with
    | some mI =>
      if mI ≠ 0 ∧ tickLabels.length > 1 then
        let tickInterval := tickLabels.getD 1 0 - tickLabels.getD 0 0
        let pruned := minIntervalLoop mI (tickLabels.length + 64) tickInterval tickLabels
        if pruned.length = 1 then pruned ++ [pruned.getD 0 0 + mI] else pruned
      else tickLabels
    | none => tickLabels

/-- The `'...'` marker appended by `getTailoredTextOrDefault`. -/
def dots : List Char := ['.', '.', '.']

/-- The `while (min <= max)` binary-search loop of `getTailoredTextOrDefault`:
`j = (min + max) / 2 | 0` is measured as a prefix of `t`; too-narrow prefixes
move `min` up, too-wide prefixes move `max` down, an exact hit breaks.  The
returned value is the last midpoint tested (the carried `i` if the loop body
never runs).  `fuel` bounds the iterations; the loop is entered with
`fuel = t.length + 1`, which suffices since `max + 1 - min` shrinks every pass. -/
def tailorSearch (mw : List Char → ℚ) (t : List Char) (maxWidth : ℚ) :
    ℕ → ℕ → ℕ → ℕ → ℕ
  | 0, _, _, i => i
  | fuel + 1, mn, mx, i =>
    if mn ≤ mx then
      let j := (mn + mx) / 2
      let w := mw (t.take j)
      if maxWidth > w then tailorSearch mw t maxWidth fuel (j + 1) mx j
      else if maxWidth < w then tailorSearch mw t maxWidth fuel mn (j - 1) j
      else j
    else i

/-- `TextMeasurementService.getTailoredTextOrDefault`.  The DOM text measurer
is abstracted as `mw` on the measured string's characters (the font properties
are fixed throughout the call).  Empty text and text already narrower than
`maxWidth` are returned as is; otherwise the search runs over prefixes of
`'...' + text`, the selected index is decremented once if its prefix still
measures wider than `maxWidth`, and `text.substr(3, i - 3) + '...'` is
returned (a negative `substr` length yields the empty string, as in ℕ). -/
def getTailoredTextOrDefault (mw : List Char → ℚ) (text : List Char)
    (maxWidth : ℚ) : List Char :=
  if text.length = 0 then text
  else if mw text < maxWidth then text
  else
    let t := dots ++ text
    let i0 := tailorSearch mw t maxWidth (t.length + 1) 1 t.length 3
    let i1 := if maxWidth < mw (t.take i0) then i0 - 1 else i0
    (t.drop 3).take (i1 - 3) ++ dots

/-- A text measurer that reports one width unit per character: monotone
non-decreasing in the length of the measured string. -/
def lenWidth (s : List Char) : ℚ := s.length

/-- The domains on which `normalizeLinearDomain` fails to be idempotent: a
negative degenerate domain tiny enough that its 20%-expanded image gets its
min snapped to 0, and a domain with `max = 0` whose tiny non-zero min gets
snapped to 0, producing the all-zero domain that renormalizes to the
fallback. -/
def normalizeUnstable (d : NumberRange) : Prop :=
  match d.min, d.max with
  | some mn, some mx =>
    (mn = mx ∧ mn < 0 ∧ |mn * 1.2| < 0.0001) ∨
    (mx = 0 ∧ mn ≠ 0 ∧ |mn| < 0.0001)
  | _, _ => False

lemma normalizeLinearDomain_eq (mn mx : ℚ) :
    normalizeLinearDomain ⟨some mn, some mx⟩ =
      if mn = 0 ∧ mx = 0 then ⟨some mn, some 10⟩
      else if mn = mx then
        ⟨some (if mn < 0 then mn * 1.2 else mn * 0.8),
         some (if mx < 0 then mx * 0.8 else mx * 1.2)⟩
      else if |mn| < 0.0001 ∧ mn / (mx - mn) < 0.0001 then ⟨some 0, some mx⟩
      else ⟨some mn, some mx⟩ := rfl

lemma normalizeLinearDomain_nan_left (dM : Option ℚ) :
    normalizeLinearDomain ⟨none, dM⟩ = ⟨some 0, some 10⟩ := rfl

lemma normalizeLinearDomain_nan_right (mn : ℚ) :
    normalizeLinearDomain ⟨some mn, none⟩ = ⟨some 0, some 10⟩ := rfl

lemma normalizeLinearDomain_snapped_fixed (mx : ℚ) (h : mx ≠ 0) :
    normalizeLinearDomain ⟨some 0, some mx⟩ = ⟨some 0, some mx⟩ := by
  rw [normalizeLinearDomain_eq]
  rw [if_neg fun hc => h hc.2, if_neg (Ne.symm h),
    if_pos ⟨by norm_num, by rw [sub_zero, zero_div]; norm_num⟩]

/-- Claim C9 counterexample: on `NaN` the function returns `null`, not a
finite number. -/
theorem normalizeNonFiniteNumber_nan_is_null :
    normalizeNonFiniteNumber JSNum.nan = none ∧
    (normalizeNonFiniteNumber JSNum.nan).any JSNum.isFinite = false :=
  ⟨rfl, rfl⟩

/-- Claim C9 (amended): every number the function returns is finite; the two
infinities are clamped to `±Number.MAX_VALUE` (a positive bound, so sign is
preserved) and finite inputs pass through unchanged; `NaN`, however, maps to
`null` rather than to a finite sentinel number. -/
theorem normalizeNonFiniteNumber_spec :
    (∀ v, (normalizeNonFiniteNumber v).all JSNum.isFinite = true) ∧
    normalizeNonFiniteNumber JSNum.nan = none ∧
    normalizeNonFiniteNumber JSNum.posInf = some (JSNum.finite maxValue) ∧
    normalizeNonFiniteNumber JSNum.negInf = some (JSNum.finite (-maxValue)) ∧
    (∀ q : ℚ, normalizeNonFiniteNumber (JSNum.finite q) = some (JSNum.finite q)) ∧
    0 < maxValue := by
  refine ⟨fun v => ?_, rfl, rfl, rfl, fun q => rfl, by norm_num [maxValue]⟩
  cases v <;> rfl

/-- Claim C10: both tick-count recommenders return 3, 5 or 8 for every
available width (zero and negative included), hence never 0, and the
zero-ticks branch of `getMargin` is unreachable: the margin is always the
fixed `{top 20, right 30, bottom 40, left 30}`. -/
theorem getMargin_zero_branch_unreachable :
    (∀ w : ℚ, getRecommendedNumberOfTicksForXAxis w = 3 ∨
        getRecommendedNumberOfTicksForXAxis w = 5 ∨
        getRecommendedNumberOfTicksForXAxis w = 8) ∧
    (∀ w : ℚ, getRecommendedNumberOfTicksForYAxis w = 3 ∨
        getRecommendedNumberOfTicksForYAxis w = 5 ∨
        getRecommendedNumberOfTicksForYAxis w = 8) ∧
    (∀ w : ℚ, getRecommendedNumberOfTicksForXAxis w ≠ 0) ∧
    (∀ w : ℚ, getRecommendedNumberOfTicksForYAxis w ≠ 0) ∧
    (∀ aw ah xm ym : ℚ, getMargin aw ah xm ym = ⟨20, 30, 40, 30⟩) := by
  have hx : ∀ w : ℚ, getRecommendedNumberOfTicksForXAxis w = 3 ∨
      getRecommendedNumberOfTicksForXAxis w = 5 ∨
      getRecommendedNumberOfTicksForXAxis w = 8 := by
    intro w
    unfold getRecommendedNumberOfTicksForXAxis
    split
    · exact Or.inl rfl
    split
    · exact Or.inr (Or.inl rfl)
    · exact Or.inr (Or.inr rfl)
  have hy : ∀ w : ℚ, getRecommendedNumberOfTicksForYAxis w = 3 ∨
      getRecommendedNumberOfTicksForYAxis w = 5 ∨
      getRecommendedNumberOfTicksForYAxis w = 8 := by
    intro w
    unfold getRecommendedNumberOfTicksForYAxis
    split
    · exact Or.inl rfl
    split
    · exact Or.inr (Or.inl rfl)
    · exact Or.inr (Or.inr rfl)
  have hx0 : ∀ w : ℚ, getRecommendedNumberOfTicksForXAxis w ≠ 0 := by
    intro w
    rcases hx w with h | h | h <;> omega
  have hy0 : ∀ w : ℚ, getRecommendedNumberOfTicksForYAxis w ≠ 0 := by
    intro w
    rcases hy w with h | h | h <;> omega
  refine ⟨hx, hy, hx0, hy0, fun aw ah xm ym => ?_⟩
  unfold getMargin
  rw [if_neg]
  rintro (h | h)
  · exact hx0 _ h
  · exact hy0 _ h

/-- Claim C5: a domain with a `NaN` bound resets to the fallback `[0, 10]`;
the all-zero domain maps to `[0, 10]`; a non-zero degenerate domain expands
symmetrically by 20% away from zero (negative bounds go further negative,
positive bounds further positive); in particular `[5, 5]` maps to `[4, 6]`. -/
theorem normalizeLinearDomain_degenerate :
    (∀ d : NumberRange, (d.min = none ∨ d.max = none) →
        normalizeLinearDomain d = ⟨some 0, some 10⟩) ∧
    normalizeLinearDomain ⟨some 0, some 0⟩ = ⟨some 0, some 10⟩ ∧
    (∀ m : ℚ, m ≠ 0 →
        normalizeLinearDomain ⟨some m, some m⟩ =
          ⟨some (if m < 0 then m * 1.2 else m * 0.8),
           some (if m < 0 then m * 0.8 else m * 1.2)⟩) ∧
    normalizeLinearDomain ⟨some 5, some 5⟩ = ⟨some 4, some 6⟩ := by
  refine ⟨?_, by norm_num [normalizeLinearDomain_eq], fun m hm => ?_, ?_⟩
  · rintro ⟨dm, dM⟩ (h | h)
    · dsimp at h; subst h; exact normalizeLinearDomain_nan_left dM
    · dsimp at h; subst h
      cases dm with
      | none => exact normalizeLinearDomain_nan_left none
      | some mn => exact normalizeLinearDomain_nan_right mn
  · rw [normalizeLinearDomain_eq, if_neg fun hc => hm hc.1, if_pos rfl]
  · rw [normalizeLinearDomain_eq]
    norm_num

/-- Witness for C5 at concrete inputs: a `NaN` min falls back to `[0, 10]`
and the degenerate `[-2, -2]` expands to `[-2.4, -1.6]`. -/
theorem normalizeLinearDomain_degenerate_witness :
    normalizeLinearDomain ⟨none, some 7⟩ = ⟨some 0, some 10⟩ ∧
    normalizeLinearDomain ⟨some (-2), some (-2)⟩ = ⟨some (-2.4), some (-1.6)⟩ := by
  constructor
  · exact normalizeLinearDomain_degenerate.1 ⟨none, some 7⟩ (Or.inl rfl)
  · have h := normalizeLinearDomain_degenerate.2.2.1 (-2) (by norm_num)
    rw [h]
    norm_num

/-- Claim C6 counterexample: for min `-1/20000` and max `0` the code snaps min
to exactly 0, yet the claim's condition `|min|/(max-min) < 1e-4` is false
there (the quotient is 1), so the claimed "if and only if" fails. -/
theorem normalizeLinearDomain_snap_cex :
    (normalizeLinearDomain ⟨some (-(1/20000)), some 0⟩).min = some 0 ∧
    ¬ |(-(1/20000) : ℚ)| / ((0 : ℚ) - -(1/20000)) < 0.0001 := by
  have habs : |(-(1/20000) : ℚ)| = 1/20000 := by
    rw [abs_neg, abs_of_pos]
    norm_num
  constructor
  · rw [normalizeLinearDomain_eq, if_neg (by norm_num), if_neg (by norm_num),
      if_pos ⟨by rw [habs]; norm_num, by norm_num⟩]
  · rw [habs]
    norm_num

/-- Claim C6 (amended): for non-`NaN` bounds with `min < max` and not both
zero, min is replaced by exactly 0 iff `|min| < 1e-4` and the signed quotient
`min/(max-min)` is below `1e-4` (so every negligibly small negative min is
snapped as well), and max is always left unchanged. -/
theorem normalizeLinearDomain_snap (mn mx : ℚ) (hlt : mn < mx)
    (hnz : ¬(mn = 0 ∧ mx = 0)) :
    ((normalizeLinearDomain ⟨some mn, some mx⟩).min = some 0 ↔
      |mn| < 0.0001 ∧ mn / (mx - mn) < 0.0001) ∧
    (normalizeLinearDomain ⟨some mn, some mx⟩).max = some mx := by
  rw [normalizeLinearDomain_eq, if_neg hnz, if_neg (ne_of_lt hlt)]
  by_cases hc : |mn| < 0.0001 ∧ mn / (mx - mn) < 0.0001
  · rw [if_pos hc]
    exact ⟨⟨fun _ => hc, fun _ => rfl⟩, rfl⟩
  · rw [if_neg hc]
    refine ⟨⟨fun h => ?_, fun h => absurd h hc⟩, rfl⟩
    have hmn : mn = 0 := by simpa using h
    subst hmn
    rw [zero_div] at hc
    exact absurd ⟨by norm_num, by norm_num⟩ hc

/-- Witness for C6 at `min = 0`, `max = 10`: the snap condition holds (both
quantities are 0), min is 0 and max is unchanged. -/
theorem normalizeLinearDomain_snap_witness :
    ((normalizeLinearDomain ⟨some 0, some 10⟩).min = some 0 ↔
      |(0 : ℚ)| < 0.0001 ∧ (0 : ℚ) / (10 - 0) < 0.0001) ∧
    (normalizeLinearDomain ⟨some 0, some 10⟩).max = some 10 :=
  normalizeLinearDomain_snap 0 10 (by norm_num) (by norm_num)

lemma getBestNumberOfTicks_eq (mn mx : ℚ) (md : List (Option DataViewMetadataColumn))
    (c : ℚ) (b : Bool) :
    getBestNumberOfTicks (some mn) (some mx) md c b =
      if c ≤ 1 ∨ (mx ≤ 1 ∧ mn ≥ -1) then c
      else if mn = mx then (if b then 1 else DefaultBestTickCount)
      else if hasNonIntegerData md then c
      else min (mx - mn + 1) c := rfl

/-- Claim C4 counterexample: with `min = max = 1` (a degenerate date-time
domain) and `maxTickCount = 5`, the claim predicts 1 but the code returns 5,
because the `max <= 1 && min >= -1` early return precedes the degenerate
check. -/
theorem getBestNumberOfTicks_cex :
    getBestNumberOfTicks (some 1) (some 1) [] 5 true = 5 ∧ (5 : ℚ) ≠ 1 := by
  constructor
  · rw [getBestNumberOfTicks_eq, if_pos (Or.inr ⟨by norm_num, by norm_num⟩)]
  · norm_num

/-- Claim C4 (amended): for non-`NaN` bounds the branches apply in the
source's order: `maxTickCount ≤ 1` or values between -1 and 1 return
`maxTickCount` first; then a degenerate `min = max` domain returns 1 for
date-time and the fixed default 3 otherwise; then non-integer metadata
returns `maxTickCount`; else the result is `min(max - min + 1, maxTickCount)`.
A `NaN` bound returns the default 3. -/
theorem getBestNumberOfTicks_spec :
    (∀ (mn mx : ℚ) md (c : ℚ) b, c ≤ 1 ∨ (mx ≤ 1 ∧ mn ≥ -1) →
        getBestNumberOfTicks (some mn) (some mx) md c b = c) ∧
    (∀ (mn : ℚ) md (c : ℚ) b, ¬(c ≤ 1 ∨ (mn ≤ 1 ∧ mn ≥ -1)) →
        getBestNumberOfTicks (some mn) (some mn) md c b = if b then 1 else 3) ∧
    (∀ (mn mx : ℚ) md (c : ℚ) b, ¬(c ≤ 1 ∨ (mx ≤ 1 ∧ mn ≥ -1)) → mn ≠ mx →
        hasNonIntegerData md = true →
        getBestNumberOfTicks (some mn) (some mx) md c b = c) ∧
    (∀ (mn mx : ℚ) md (c : ℚ) b, ¬(c ≤ 1 ∨ (mx ≤ 1 ∧ mn ≥ -1)) → mn ≠ mx →
        hasNonIntegerData md = false →
        getBestNumberOfTicks (some mn) (some mx) md c b =
          min (mx - mn + 1) c) ∧
    (∀ md (c : ℚ) b, getBestNumberOfTicks none (some 0) md c b = 3) := by
  refine ⟨fun mn mx md c b h => ?_, fun mn md c b h => ?_,
    fun mn mx md c b h hne hmd => ?_, fun mn mx md c b h hne hmd => ?_,
    fun md c b => rfl⟩
  · rw [getBestNumberOfTicks_eq, if_pos h]
  · rw [getBestNumberOfTicks_eq, if_neg h, if_pos rfl]
    rfl
  · rw [getBestNumberOfTicks_eq, if_neg h, if_neg hne, if_pos hmd]
  · rw [getBestNumberOfTicks_eq, if_neg h, if_neg hne,
      if_neg (by rw [hmd]; exact Bool.false_ne_true)]

/-- Witness for C4 at concrete inputs: a degenerate date-time domain `[5, 5]`
with `maxTickCount = 4` yields 1, and the integral domain `[2, 5]` with
`maxTickCount = 7` yields `min(4, 7) = 4`. -/
theorem getBestNumberOfTicks_witness :
    getBestNumberOfTicks (some 5) (some 5) [] 4 true = 1 ∧
    getBestNumberOfTicks (some 2) (some 5) [some ⟨some ⟨true⟩⟩] 7 false = 4 := by
  constructor
  · have h := getBestNumberOfTicks_spec.2.1 5 [] 4 true (by norm_num)
    rw [h]
    rfl
  · have h := getBestNumberOfTicks_spec.2.2.2.1 2 5 [some ⟨some ⟨true⟩⟩] 7 false
      (by norm_num) (by norm_num) (by rfl)
    rw [h]
    norm_num

lemma normalizeUnstable_eq (mn mx : ℚ) :
    normalizeUnstable ⟨some mn, some mx⟩ =
      ((mn = mx ∧ mn < 0 ∧ |mn * 1.2| < 0.0001) ∨
        (mx = 0 ∧ mn ≠ 0 ∧ |mn| < 0.0001)) := rfl

/-- Claim C1 counterexample: the domain `[-1/16384, 0]` has its tiny negative
min snapped to 0, giving the all-zero domain `[0, 0]`; normalizing once more
turns that into the fallback `[0, 10]`, so normalization is not idempotent. -/
theorem normalizeLinearDomain_idem_cex :
    normalizeLinearDomain (normalizeLinearDomain ⟨some (-(1/16384)), some 0⟩) ≠
      normalizeLinearDomain ⟨some (-(1/16384)), some 0⟩ := by
  have h1 : normalizeLinearDomain ⟨some (-(1/16384)), some 0⟩ = ⟨some 0, some 0⟩ := by
    rw [normalizeLinearDomain_eq, if_neg (by norm_num), if_neg (by norm_num),
      if_pos ⟨by rw [abs_neg, abs_of_pos] <;> norm_num, by norm_num⟩]
  have h2 : normalizeLinearDomain ⟨some 0, some 0⟩ = ⟨some 0, some 10⟩ := by
    rw [normalizeLinearDomain_eq, if_pos ⟨rfl, rfl⟩]
  rw [h1, h2]
  intro hcontra
  have := congrArg NumberRange.max hcontra
  simp at this

/-- Claim C1 (amended): `normalizeLinearDomain` is idempotent on every domain
except the two families that it maps onto a snapped all-zero or
min-snapped image: degenerate negative domains with `1.2 * |min| < 1e-4`, and
domains with `max = 0` and a tiny non-zero min (`0 < |min| < 1e-4`). -/
theorem normalizeLinearDomain_idem (d : NumberRange) (h : ¬ normalizeUnstable d) :
    normalizeLinearDomain (normalizeLinearDomain d) = normalizeLinearDomain d := by
  obtain ⟨dm, dM⟩ := d
  have hfix10 : normalizeLinearDomain ⟨some 0, some 10⟩ = ⟨some 0, some 10⟩ :=
    normalizeLinearDomain_snapped_fixed 10 (by norm_num)
  cases dm with
  | none => rw [normalizeLinearDomain_nan_left]; exact hfix10
  | some mn =>
    cases dM with
    | none => rw [normalizeLinearDomain_nan_right]; exact hfix10
    | some mx =>
      rw [normalizeUnstable_eq] at h
      by_cases h00 : mn = 0 ∧ mx = 0
      · obtain ⟨rfl, rfl⟩ := h00
        have h1 : normalizeLinearDomain ⟨some (0 : ℚ), some (0 : ℚ)⟩ =
            ⟨some 0, some 10⟩ := by
          rw [normalizeLinearDomain_eq, if_pos ⟨rfl, rfl⟩]
        rw [h1]; exact hfix10
      · by_cases heq : mn = mx
        · subst heq
          have hmn0 : mn ≠ 0 := fun hz => h00 ⟨hz, hz⟩
          rcases lt_trichotomy mn 0 with hneg | hz | hpos
          · have hstep : normalizeLinearDomain ⟨some mn, some mn⟩ =
                ⟨some (mn * 1.2), some (mn * 0.8)⟩ := by
              rw [normalizeLinearDomain_eq, if_neg h00, if_pos rfl,
                if_pos hneg, if_pos hneg]
            have hna : ¬ |mn * 1.2| < 0.0001 :=
              fun habs => h (Or.inl ⟨rfl, hneg, habs⟩)
            rw [hstep, normalizeLinearDomain_eq,
              if_neg (fun hc => hmn0 (by have := hc.1; linarith)),
              if_neg (fun hc : mn * 1.2 = mn * 0.8 => hmn0 (by linarith)),
              if_neg (fun hc => hna hc.1)]
          · exact absurd hz hmn0
          · have hstep : normalizeLinearDomain ⟨some mn, some mn⟩ =
                ⟨some (mn * 0.8), some (mn * 1.2)⟩ := by
              rw [normalizeLinearDomain_eq, if_neg h00, if_pos rfl,
                if_neg (not_lt.mpr hpos.le), if_neg (not_lt.mpr hpos.le)]
            have hden : mn * 1.2 - mn * 0.8 ≠ 0 := fun hd => hmn0 (by linarith)
            have hq : (mn * 0.8) / (mn * 1.2 - mn * 0.8) = 2 := by
              rw [div_eq_iff hden]; ring
            rw [hstep, normalizeLinearDomain_eq,
              if_neg (fun hc => hmn0 (by have := hc.1; linarith)),
              if_neg (fun hc : mn * 0.8 = mn * 1.2 => hmn0 (by linarith)),
              if_neg (fun hc => by rw [hq] at hc; norm_num at hc)]
        · by_cases hsnap : |mn| < 0.0001 ∧ mn / (mx - mn) < 0.0001
          · have hstep : normalizeLinearDomain ⟨some mn, some mx⟩ =
                ⟨some 0, some mx⟩ := by
              rw [normalizeLinearDomain_eq, if_neg h00, if_neg heq, if_pos hsnap]
            rw [hstep]
            refine normalizeLinearDomain_snapped_fixed mx fun hmx0 => ?_
            exact h (Or.inr ⟨hmx0, fun hz => heq (hz.trans hmx0.symm), hsnap.1⟩)
          · have hstep : normalizeLinearDomain ⟨some mn, some mx⟩ =
                ⟨some mn, some mx⟩ := by
              rw [normalizeLinearDomain_eq, if_neg h00, if_neg heq, if_neg hsnap]
            rw [hstep]; exact hstep

/-- Witness for C1 at the stable domain `[5, 5]`: it is not in the unstable
family, and normalizing twice agrees with normalizing once. -/
theorem normalizeLinearDomain_idem_witness :
    ¬ normalizeUnstable ⟨some 5, some 5⟩ ∧
    normalizeLinearDomain (normalizeLinearDomain ⟨some 5, some 5⟩) =
      normalizeLinearDomain ⟨some 5, some 5⟩ := by
  have hns : ¬ normalizeUnstable ⟨some 5, some 5⟩ := by
    rw [normalizeUnstable_eq]
    norm_num
  exact ⟨hns, normalizeLinearDomain_idem ⟨some 5, some 5⟩ hns⟩

lemma strideLoop_of_le (labels : List String) (step : ℕ) (fuel i : ℕ)
    (h : labels.length ≤ i) : strideLoop labels step fuel i = [] := by
  cases fuel with
  | zero => rfl
  | succ f =>
    unfold strideLoop
    rw [dif_neg (by omega)]

lemma strideLoop_one (labels : List String) :
    ∀ fuel i, labels.length ≤ fuel + i → strideLoop labels 1 fuel i = labels.drop i := by
  intro fuel
  induction fuel with
  | zero =>
    intro i h
    rw [strideLoop, List.drop_eq_nil_of_le (by omega)]
  | succ f ih =>
    intro i h
    unfold strideLoop
    by_cases hi : i < labels.length
    · rw [dif_pos hi, ih (i + 1) (by omega), List.get_eq_getElem,
        ← List.drop_eq_getElem_cons hi]
    · rw [dif_neg hi, List.drop_eq_nil_of_le (by omega)]

lemma strideLoop_length_le (labels : List String) (step : ℕ) (hs : 0 < step) :
    ∀ fuel i, i < labels.length →
      (strideLoop labels step fuel i).length ≤ (labels.length - i - 1) / step + 1 := by
  intro fuel
  induction fuel with
  | zero =>
    intro i _
    rw [strideLoop]
    exact Nat.zero_le _
  | succ f ih =>
    intro i hi
    unfold strideLoop
    rw [dif_pos hi]
    by_cases hnext : i + step < labels.length
    · have hrec := ih (i + step) hnext
      have hsplit : labels.length - i - 1 = (labels.length - (i + step) - 1) + step := by
        omega
      rw [List.length_cons, hsplit, Nat.add_div_right _ hs]
      omega
    · rw [strideLoop_of_le labels step f (i + step) (by omega)]
      simp

lemma createTrueZeroTickLabel_length (ticks : List ℚ) (epsilon : ℚ) :
    (createTrueZeroTickLabel ticks epsilon).length = ticks.length := by
  rcases ticks with _ | ⟨t0, _ | ⟨t1, r⟩⟩ <;> simp [createTrueZeroTickLabel]

lemma spliceEveryOther_length_le : ∀ l : List ℚ, (spliceEveryOther l).length ≤ l.length
  | [] => by simp [spliceEveryOther]
  | [a] => by simp [spliceEveryOther]
  | a :: b :: rest => by
    rw [spliceEveryOther]
    have := spliceEveryOther_length_le rest
    simp only [List.length_cons]
    omega

lemma minIntervalLoop_length_le (mI : ℚ) :
    ∀ (fuel : ℕ) (ti : ℚ) (l : List ℚ),
      (minIntervalLoop mI fuel ti l).length ≤ l.length
  | 0, ti, l => le_refl _
  | fuel + 1, ti, l => by
    rw [minIntervalLoop]
    split
    · exact le_trans (minIntervalLoop_length_le mI fuel _ _)
        (spliceEveryOther_length_le l)
    · exact le_refl _

lemma quantRange_zero (ticks : ℕ → List ℚ) (minInterval : Option ℚ) :
    getRecommendedTickValuesForAQuantitativeRange 0 ticks minInterval = [] := rfl

lemma quantRange_none (maxTicks : ℕ) (ticks : ℕ → List ℚ) (h0 : maxTicks ≠ 0) :
    getRecommendedTickValuesForAQuantitativeRange maxTicks ticks none =
      createTrueZeroTickLabel
        (if (if (ticks maxTicks).length > maxTicks ∧ maxTicks > 1
              then ticks (maxTicks - 1) else ticks maxTicks).length < MinTickCount
          then ticks (maxTicks + 1)
          else if (ticks maxTicks).length > maxTicks ∧ maxTicks > 1
              then ticks (maxTicks - 1) else ticks maxTicks)
        (1e-5) := by
  unfold getRecommendedTickValuesForAQuantitativeRange
  rw [if_neg h0]

lemma quantRange_some (maxTicks : ℕ) (ticks : ℕ → List ℚ) (mI : ℚ)
    (h0 : maxTicks ≠ 0) :
    getRecommendedTickValuesForAQuantitativeRange maxTicks ticks (some mI) =
      (fun tickLabels =>
        if mI ≠ 0 ∧ tickLabels.length > 1 then
          (fun pruned =>
            if pruned.length = 1 then pruned ++ [pruned.getD 0 0 + mI] else pruned)
            (minIntervalLoop mI (tickLabels.length + 64)
              (tickLabels.getD 1 0 - tickLabels.getD 0 0) tickLabels)
        else tickLabels)
        (getRecommendedTickValuesForAQuantitativeRange maxTicks ticks none) := by
  unfold getRecommendedTickValuesForAQuantitativeRange
  rw [if_neg h0, if_neg h0]

lemma quantRange_none_length_le (maxTicks : ℕ) (ticks : ℕ → List ℚ)
    (hgen : ∀ n, (ticks n).length ≤ n) :
    (getRecommendedTickValuesForAQuantitativeRange maxTicks ticks none).length ≤
      maxTicks + 1 := by
  by_cases h0 : maxTicks = 0
  · subst h0
    rw [quantRange_zero]
    simp
  · rw [quantRange_none _ _ h0, createTrueZeroTickLabel_length]
    split
    · split
      · have := hgen (maxTicks + 1)
        omega
      · have := hgen (maxTicks - 1)
        omega
    · split
      · have := hgen (maxTicks + 1)
        omega
      · have := hgen maxTicks
        omega

lemma stride_count_bound (len m : ℕ) (hm : 0 < m) (hlm : m ≤ len) :
    (len - 1) / (len / m) + 1 ≤ 2 * m - 1 := by
  obtain ⟨a, rfl⟩ : ∃ a, m = a + 1 := ⟨m - 1, by omega⟩
  obtain ⟨b, hb⟩ : ∃ b, len / (a + 1) = b + 1 :=
    ⟨len / (a + 1) - 1, by have := (Nat.one_le_div_iff hm).mpr hlm; omega⟩
  have hlt : len < (b + 1) * (a + 1) + (a + 1) := by
    have := Nat.lt_div_mul_add (a := len) hm
    rw [hb] at this
    exact this
  have key : (b + 1) * (a + 1) + (a + 1) ≤ (2 * a + 1) * (b + 1) + 1 := by
    have e : (2 * a + 1) * (b + 1) + 1 = ((b + 1) * (a + 1) + (a + 1)) + a * b := by
      ring
    rw [e]
    exact Nat.le_add_right _ _
  have hlen2 : len ≤ (2 * a + 1) * (b + 1) := by
    have h4 : len < (2 * a + 1) * (b + 1) + 1 := lt_of_lt_of_le hlt key
    omega
  have hdiv : (len - 1) / (b + 1) < 2 * a + 1 := by
    rw [Nat.div_lt_iff_lt_mul (by omega : 0 < b + 1)]
    have hPpos : 0 < (2 * a + 1) * (b + 1) := by positivity
    generalize (2 * a + 1) * (b + 1) = P at hlen2 hPpos ⊢
    omega
  rw [hb]
  omega

/-- Claim C2 counterexample: with `maxTicks = 6` and ten ordinal labels the
stride is `floor(10/6) = 1`, so all ten labels are returned, exceeding the
claimed bound `maxTicks + 1 = 7`. -/
theorem tick_count_bound_cex :
    (getRecommendedTickValuesForAnOrdinalRange 6
        ["a", "b", "c", "d", "e", "f", "g", "h", "i", "j"]).length = 10 ∧
    ¬ (10 ≤ 6 + 1) := by
  constructor
  · rfl
  · omega

/-- Claim C2 (amended): ordinal tick selection returns at most
`2 * maxTicks - 1` labels (tight: the floor-stride can nearly double the
request, as the source's TODO admits), and quantitative tick selection
returns at most `maxTickCount + 1` values whenever the scale's generator
answers a request for `n` ticks with at most `n` values. -/
theorem tick_count_bound (maxTicks : ℕ) (labels : List String)
    (ticks : ℕ → List ℚ) (minInterval : Option ℚ)
    (hgen : ∀ n, (ticks n).length ≤ n) :
    (getRecommendedTickValuesForAnOrdinalRange maxTicks labels).length ≤
      2 * maxTicks - 1 ∧
    (getRecommendedTickValuesForAQuantitativeRange maxTicks ticks
        minInterval).length ≤ maxTicks + 1 := by
  constructor
  · unfold getRecommendedTickValuesForAnOrdinalRange
    by_cases h0 : maxTicks ≤ 0
    · rw [if_pos h0]
      simp
    · rw [if_neg h0]
      by_cases hgt : maxTicks > labels.length
      · rw [if_pos hgt]
        omega
      · rw [if_neg hgt]
        have hm : 0 < maxTicks := by omega
        have hlm : maxTicks ≤ labels.length := by omega
        have hlen : 0 < labels.length := by omega
        have hstep : 0 < labels.length / maxTicks :=
          (Nat.one_le_div_iff hm).mpr hlm
        have hb := strideLoop_length_le labels (labels.length / maxTicks) hstep
          labels.length 0 hlen
        rw [Nat.sub_zero] at hb
        have hcount := stride_count_bound labels.length maxTicks hm hlm
        omega
  · rcases minInterval with _ | mI
    · exact quantRange_none_length_le maxTicks ticks hgen
    · by_cases h0 : maxTicks = 0
      · subst h0
        rw [quantRange_zero]
        simp
      · rw [quantRange_some _ _ _ h0]
        have hT := quantRange_none_length_le maxTicks ticks hgen
        have hploop := minIntervalLoop_length_le mI
          ((getRecommendedTickValuesForAQuantitativeRange maxTicks ticks none).length + 64)
          ((getRecommendedTickValuesForAQuantitativeRange maxTicks ticks none).getD 1 0 -
            (getRecommendedTickValuesForAQuantitativeRange maxTicks ticks none).getD 0 0)
          (getRecommendedTickValuesForAQuantitativeRange maxTicks ticks none)
        dsimp only
        split
        · split
          · rename_i hcond hone
            simp only [List.length_append, List.length_cons, List.length_nil]
            omega
          · omega
        · exact hT

/-- Witness for C2: with `maxTicks = 3`, four labels and the generator that
answers `n` with `n` evenly spaced values, both bounds hold. -/
theorem tick_count_bound_witness :
    (getRecommendedTickValuesForAnOrdinalRange 3 ["a", "b", "c", "d"]).length ≤
      2 * 3 - 1 ∧
    (getRecommendedTickValuesForAQuantitativeRange 3
        (fun n => (List.range n).map (fun k : ℕ => (k : ℚ))) none).length ≤ 3 + 1 :=
  tick_count_bound 3 ["a", "b", "c", "d"]
    (fun n => (List.range n).map (fun k : ℕ => (k : ℚ))) none
    (fun n => by rw [List.length_map, List.length_range])

/-- Claim C7: an ordinal domain with at most `maxTickCount` labels
(`maxTickCount > 0`) is returned unchanged and in order — strictly fewer
labels hit the early return, and exactly `maxTickCount` labels give stride 1,
which also walks the whole list. -/
theorem ordinal_roundtrip (maxTicks : ℕ) (labels : List String)
    (hpos : 0 < maxTicks) (hlen : labels.length ≤ maxTicks) :
    getRecommendedTickValuesForAnOrdinalRange maxTicks labels = labels := by
  unfold getRecommendedTickValuesForAnOrdinalRange
  rw [if_neg (by omega)]
  by_cases hgt : maxTicks > labels.length
  · rw [if_pos hgt]
  · rw [if_neg hgt]
    have heq : labels.length = maxTicks := le_antisymm hlen (not_lt.mp hgt)
    have hstep : labels.length / maxTicks = 1 := by
      rw [heq, Nat.div_self hpos]
    rw [hstep, strideLoop_one labels labels.length 0 (by omega), List.drop_zero]

/-- Witness for C7: two requested ticks over the single label `"a"` return
exactly `["a"]`. -/
theorem ordinal_roundtrip_witness :
    getRecommendedTickValuesForAnOrdinalRange 2 ["a"] = ["a"] :=
  ordinal_roundtrip 2 ["a"] (by omega) (by simp)

/-- Claim C8: over a quantitative scale with no minimum interval, when the
generator at `maxTicks` yields more than `maxTicks` values and `maxTicks > 1`,
the result is recomputed from the generator at `maxTicks - 1`; whenever the
list selected so far has fewer than 2 values, it is recomputed from the
generator at `maxTicks + 1` (the zero-rounding pass applies either way). -/
theorem quantitative_retry (maxTicks : ℕ) (ticks : ℕ → List ℚ) :
    (1 < maxTicks → (ticks maxTicks).length > maxTicks →
      2 ≤ (ticks (maxTicks - 1)).length →
      getRecommendedTickValuesForAQuantitativeRange maxTicks ticks none =
        createTrueZeroTickLabel (ticks (maxTicks - 1)) (1e-5)) ∧
    (1 < maxTicks → (ticks maxTicks).length > maxTicks →
      (ticks (maxTicks - 1)).length < 2 →
      getRecommendedTickValuesForAQuantitativeRange maxTicks ticks none =
        createTrueZeroTickLabel (ticks (maxTicks + 1)) (1e-5)) ∧
    (0 < maxTicks → ¬((ticks maxTicks).length > maxTicks ∧ maxTicks > 1) →
      (ticks maxTicks).length < 2 →
      getRecommendedTickValuesForAQuantitativeRange maxTicks ticks none =
        createTrueZeroTickLabel (ticks (maxTicks + 1)) (1e-5)) := by
  refine ⟨fun h1 h2 h3 => ?_, fun h1 h2 h3 => ?_, fun h0 hnc h3 => ?_⟩
  · rw [quantRange_none _ _ (by omega)]
    simp only [MinTickCount]
    have hc : (ticks maxTicks).length > maxTicks ∧ maxTicks > 1 := ⟨h2, h1⟩
    rw [if_pos hc, if_neg (by omega : ¬ (ticks (maxTicks - 1)).length < 2)]
  · rw [quantRange_none _ _ (by omega)]
    simp only [MinTickCount]
    have hc : (ticks maxTicks).length > maxTicks ∧ maxTicks > 1 := ⟨h2, h1⟩
    rw [if_pos hc, if_pos h3]
  · rw [quantRange_none _ _ (by omega)]
    simp only [MinTickCount]
    rw [if_neg hnc, if_pos h3]

/-- Witness for C8, the spec's scenario: `maxTicks = 5` and a generator whose
answer for 5 has the 6 candidates `0, 20, ..., 100`, so the result is
recomputed from the generator at 4. -/
theorem quantitative_retry_witness :
    getRecommendedTickValuesForAQuantitativeRange 5
        (fun n => (List.range (n + 1)).map (fun k : ℕ => (20 * (k : ℚ)))) none =
      createTrueZeroTickLabel
        ((List.range (5 - 1 + 1)).map (fun k : ℕ => (20 * (k : ℚ)))) (1e-5) :=
  (quantitative_retry 5
      (fun n => (List.range (n + 1)).map (fun k : ℕ => (20 * (k : ℚ))))).1
    (by omega) (by rw [List.length_map, List.length_range]; omega)
    (by rw [List.length_map, List.length_range]; omega)

lemma tailorSearch_succ (mw : List Char → ℚ) (t : List Char) (maxWidth : ℚ)
    (f mn mx i : ℕ) :
    tailorSearch mw t maxWidth (f + 1) mn mx i =
      if mn ≤ mx then
        if maxWidth > mw (t.take ((mn + mx) / 2)) then
          tailorSearch mw t maxWidth f ((mn + mx) / 2 + 1) mx ((mn + mx) / 2)
        else if maxWidth < mw (t.take ((mn + mx) / 2)) then
          tailorSearch mw t maxWidth f mn ((mn + mx) / 2 - 1) ((mn + mx) / 2)
        else (mn + mx) / 2
      else i := rfl

lemma tailorSearch_post (mw : List Char → ℚ) (t : List Char) (maxWidth : ℚ)
    (mono : ∀ a b : ℕ, a ≤ b → mw (t.take a) ≤ mw (t.take b)) :
    ∀ (fuel mn mx i : ℕ), mx + 1 ≤ mn + fuel → 1 ≤ mn →
      (∀ k, 1 ≤ k → k < mn → mw (t.take k) < maxWidth) →
      (mx < mn → maxWidth < mw (t.take i) →
        i - 1 = 0 ∨ mw (t.take (i - 1)) < maxWidth) →
      (maxWidth < mw (t.take (tailorSearch mw t maxWidth fuel mn mx i)) →
        tailorSearch mw t maxWidth fuel mn mx i - 1 = 0 ∨
          mw (t.take (tailorSearch mw t maxWidth fuel mn mx i - 1)) < maxWidth) := by
  intro fuel
  induction fuel with
  | zero =>
    intro mn mx i hfuel h1 hinv hexit
    rw [tailorSearch]
    exact hexit (by omega)
  | succ f ih =>
    intro mn mx i hfuel h1 hinv hexit
    rw [tailorSearch_succ]
    by_cases hle : mn ≤ mx
    · rw [if_pos hle]
      set j := (mn + mx) / 2 with hj
      have hjlb : mn ≤ j := by omega
      have hjub : j ≤ mx := by omega
      by_cases hlo : maxWidth > mw (t.take j)
      · rw [if_pos hlo]
        refine ih (j + 1) mx j (by omega) (by omega) ?_ ?_
        · intro k hk1 hkj
          rcases lt_or_ge k mn with hkm | hkm
          · exact hinv k hk1 hkm
          · exact lt_of_le_of_lt (mono k j (by omega)) hlo
        · intro _ hp
          exact absurd hp (not_lt.mpr (le_of_lt hlo))
      · rw [if_neg hlo]
        by_cases hhi : maxWidth < mw (t.take j)
        · rw [if_pos hhi]
          refine ih mn (j - 1) j (by omega) h1 hinv ?_
          intro hjm _
          rcases Nat.eq_zero_or_pos (j - 1) with hz | hpos
          · exact Or.inl hz
          · exact Or.inr (hinv (j - 1) hpos (by omega))
        · rw [if_neg hhi]
          intro hp
          exact absurd hp hhi
    · rw [if_neg hle]
      exact hexit (by omega)

lemma getTailoredTextOrDefault_eq (mw : List Char → ℚ) (text : List Char)
    (maxWidth : ℚ) (h1 : ¬ text.length = 0) (h2 : ¬ mw text < maxWidth) :
    getTailoredTextOrDefault mw text maxWidth =
      ((dots ++ text).drop 3).take
        ((if maxWidth < mw ((dots ++ text).take
              (tailorSearch mw (dots ++ text) maxWidth ((dots ++ text).length + 1) 1
                (dots ++ text).length 3))
          then tailorSearch mw (dots ++ text) maxWidth ((dots ++ text).length + 1) 1
                (dots ++ text).length 3 - 1
          else tailorSearch mw (dots ++ text) maxWidth ((dots ++ text).length + 1) 1
                (dots ++ text).length 3) - 3) ++ dots := by
  unfold getTailoredTextOrDefault
  rw [if_neg h1, if_neg h2]

/-- Claim C3 (amended): for every text and `maxWidth`, if the measurer is
monotone non-decreasing in the length of the measured string and the bare
ellipsis marker itself fits (`mw '...' ≤ maxWidth`), the returned string
measures at most `maxWidth`.  Without the ellipsis proviso the guarantee
fails, since the function never returns less than the marker. -/
theorem tailoredText_fits (mw : List Char → ℚ)
    (mono : ∀ s s' : List Char, s.length ≤ s'.length → mw s ≤ mw s')
    (text : List Char) (maxWidth : ℚ) (hdots : mw dots ≤ maxWidth) :
    mw (getTailoredTextOrDefault mw text maxWidth) ≤ maxWidth := by
  by_cases hempty : text.length = 0
  · unfold getTailoredTextOrDefault
    rw [if_pos hempty]
    exact le_trans (mono text dots (by rw [hempty]; exact Nat.zero_le _)) hdots
  · by_cases hnarrow : mw text < maxWidth
    · unfold getTailoredTextOrDefault
      rw [if_neg hempty, if_pos hnarrow]
      exact le_of_lt hnarrow
    · rw [getTailoredTextOrDefault_eq mw text maxWidth hempty hnarrow]
      set t := dots ++ text with ht
      set S := tailorSearch mw t maxWidth (t.length + 1) 1 t.length 3 with hS
      have hd3 : dots.length = 3 := rfl
      have htlen : t.length = text.length + 3 := by
        rw [ht, List.length_append, hd3]
        omega
      have hmono2 : ∀ a b : ℕ, a ≤ b → mw (t.take a) ≤ mw (t.take b) := by
        intro a b hab
        refine mono _ _ ?_
        rw [List.length_take, List.length_take]
        omega
      have hQ : maxWidth < mw (t.take S) →
          S - 1 = 0 ∨ mw (t.take (S - 1)) < maxWidth := by
        rw [hS]
        exact tailorSearch_post mw t maxWidth hmono2 (t.length + 1) 1 t.length 3
          (by omega) le_rfl (fun k hk1 hklt => absurd hk1 (by omega))
          (fun hex => absurd hex (by omega))
      set i1 := (if maxWidth < mw (t.take S) then S - 1 else S) with hi1
      have hdrop : t.drop 3 = text := by rw [ht]; rfl
      rcases le_or_lt i1 3 with h3 | h3
      · have hz : i1 - 3 = 0 := by omega
        rw [hdrop, hz, List.take_zero, List.nil_append]
        exact hdots
      · have hwle : mw (t.take i1) ≤ maxWidth := by
          by_cases hdec : maxWidth < mw (t.take S)
          · rcases hQ hdec with hz | hlt
            · have : i1 = S - 1 := by rw [hi1, if_pos hdec]
              omega
            · have : i1 = S - 1 := by rw [hi1, if_pos hdec]
              rw [this]
              exact le_of_lt hlt
          · have : i1 = S := by rw [hi1, if_neg hdec]
            rw [this]
            exact not_lt.mp hdec
        have hlen_eq : ((t.drop 3).take (i1 - 3) ++ dots).length =
            (t.take i1).length := by
          rw [hdrop, List.length_append, List.length_take, List.length_take, hd3]
          omega
        have hmw_eq : mw ((t.drop 3).take (i1 - 3) ++ dots) = mw (t.take i1) :=
          le_antisymm (mono _ _ (le_of_eq hlen_eq)) (mono _ _ (le_of_eq hlen_eq.symm))
        rw [hmw_eq]
        exact hwle

/-- Claim C3 counterexample: with the length-monotone measurer that charges
one unit per character, text `"a"` and `maxWidth = 0`, the function returns
the bare marker `"..."` whose measured width is 3, exceeding `maxWidth`. -/
theorem tailoredText_cex :
    (∀ s s' : List Char, s.length ≤ s'.length → lenWidth s ≤ lenWidth s') ∧
    getTailoredTextOrDefault lenWidth ['a'] 0 = dots ∧
    ¬ lenWidth dots ≤ 0 := by
  refine ⟨fun s s' h => ?_, rfl, by norm_num [lenWidth, dots]⟩
  unfold lenWidth
  exact_mod_cast h

/-- Witness for C3: the one-unit-per-character measurer is monotone, the
marker fits in width 10, and truncating `"abcde"` at width 10 yields a string
of measured width at most 10. -/
theorem tailoredText_fits_witness :
    lenWidth (getTailoredTextOrDefault lenWidth ['a', 'b', 'c', 'd', 'e'] 10) ≤ 10 :=
  tailoredText_fits lenWidth
    (fun s s' h => by unfold lenWidth; exact_mod_cast h)
    ['a', 'b', 'c', 'd', 'e'] 10 (by norm_num [lenWidth, dots])
